import Mathlib

/-!
Verification of the acquisition-and-conditioning pipeline of the
osc-volume-control program (src/main.rs).

Modelling conventions:
* Rust `u32` values are modelled as `ℕ` (all quantities involved stay far
  below 2^32: raw counts are bounded by the 1,000,000 iteration ceiling and
  the calibration constants, so no wrap-around can occur on any path).
* Rust `f32` arithmetic is idealised as exact arithmetic: over `ℚ` where the
  code is piecewise rational (normalize_value, RateLimiter) and over `ℝ`
  where it is transcendental (the 10^(db/20) power in apply_volume_curve).
* Rust operations that can panic (u32 subtraction underflow, `clamp` with
  `min > max`) are additionally modelled by `Option`-returning variants,
  `none` standing for a panic.
* Wall-clock quantities (`Instant` deltas, `SystemTime` seconds) are passed
  as explicit parameters.
-/

/-- Rust `clamp` for ordered values, written exactly as `Ord::clamp` /
`f32::clamp` evaluate when the `min <= max` precondition holds:
`if x < lo { lo } else if x > hi { hi } else { x }`. -/
def fclamp {α : Type*} [LinearOrder α] (x lo hi : α) : α :=
  if x < lo then lo else if x > hi then hi else x

/-- Rust `u32::clamp` on the non-panicking path (`lo <= hi`). -/
def u32_clamp (x lo hi : ℕ) : ℕ :=
  if x < lo then lo else if x > hi then hi else x

/-- Function `normalize_value` from src/main.rs (lines 84-90):
early-returns 0.0 when `max <= min`, otherwise clamps `raw` to
`[min, max]` and returns `((clamped - min) as f32) / ((max - min) as f32)`.
The result field is any division ring so it can be read in `ℚ` or `ℝ`. -/
def normalize_value {α : Type*} [DivisionRing α] (raw min max : ℕ) : α :=
  if max ≤ min then 0
  else
    let clamped := u32_clamp raw min max
    ((clamped - min : ℕ) : α) / ((max - min : ℕ) : α)

/-- Rust `u32::clamp` with its panic made explicit: `Ord::clamp` panics when
`min > max`; `none` models the panic. -/
def u32_clamp_checked (x lo hi : ℕ) : Option ℕ :=
  if lo > hi then none else some (u32_clamp x lo hi)

/-- Rust `u32` subtraction with its underflow panic made explicit. -/
def u32_sub_checked (a b : ℕ) : Option ℕ :=
  if a < b then none else some (a - b)

/-- Function `normalize_value` re-traced with every partial `u32` operation of the
source routed through its checked variant: `none` means the Rust code would
have panicked on that path. -/
def normalize_value_checked (raw min max : ℕ) : Option ℚ :=
  if max ≤ min then some 0
  else
    (u32_clamp_checked raw min max).bind fun clamped =>
      (u32_sub_checked clamped min).bind fun num =>
        (u32_sub_checked max min).bind fun den =>
          some ((num : ℚ) / (den : ℚ))

/-- Constant `POT_MIN` (src/main.rs line 23). -/
def POT_MIN : ℕ := 0

/-- Constant `POT_MAX` (src/main.rs line 24). -/
def POT_MAX : ℕ := 100000

/-- Constant `MAX_RATE_UP`, 0.05 per second (src/main.rs line 28). -/
def MAX_RATE_UP : ℚ := 1 / 20

/-- Constant `MAX_RATE_DOWN`, 0.30 per second (src/main.rs line 29). -/
def MAX_RATE_DOWN : ℚ := 3 / 10

/-- Constant `DB_MIN` (src/main.rs line 46). -/
def DB_MIN : ℝ := -60

/-- Constant `DB_MAX` (src/main.rs line 47). -/
def DB_MAX : ℝ := 0

theorem u32_clamp_le (x lo hi : ℕ) (h : lo ≤ hi) : u32_clamp x lo hi ≤ hi := by
  unfold u32_clamp; split_ifs <;> omega

theorem u32_clamp_ge (x lo hi : ℕ) (h : lo ≤ hi) : lo ≤ u32_clamp x lo hi := by
  unfold u32_clamp; split_ifs <;> omega

theorem u32_clamp_mono (lo hi r1 r2 : ℕ) (hlh : lo ≤ hi) (h : r1 ≤ r2) :
    u32_clamp r1 lo hi ≤ u32_clamp r2 lo hi := by
  unfold u32_clamp; split_ifs <;> omega

/-- Claim C2: for every raw, min, max, `normalize_value` returns 0.0 whenever
`max <= min` (a defined degenerate result, never a division by zero), and
otherwise returns `(clamp(raw, min, max) - min) / (max - min)`, the clamp and
the arithmetic read as exact field operations. -/
theorem normalize_value_spec (raw lo hi : ℕ) :
    (normalize_value raw lo hi : ℚ) =
      if hi ≤ lo then 0
      else (((Min.min (Max.max raw lo) hi : ℕ) : ℚ) - (lo : ℚ)) / ((hi : ℚ) - (lo : ℚ)) := by
  by_cases h : hi ≤ lo
  · simp [normalize_value, h]
  · push_neg at h
    have hclamp : u32_clamp raw lo hi = Min.min (Max.max raw lo) hi := by
      unfold u32_clamp; split_ifs <;> omega
    have hge : lo ≤ u32_clamp raw lo hi := u32_clamp_ge raw lo hi (le_of_lt h)
    simp only [normalize_value, if_neg (by omega : ¬ hi ≤ lo), hclamp]
    rw [← hclamp]
    have h1 : ((u32_clamp raw lo hi - lo : ℕ) : ℚ) = ((u32_clamp raw lo hi : ℕ) : ℚ) - (lo : ℚ) := by
      push_cast [Nat.cast_sub hge]; ring
    have h2 : ((hi - lo : ℕ) : ℚ) = (hi : ℚ) - (lo : ℚ) := by
      push_cast [Nat.cast_sub (le_of_lt h)]; ring
    rw [h1, h2, hclamp]

/-- Claim C3: for every range with `max > min`, `normalize_value` is monotone
non-decreasing in the raw count and its result always lies in [0, 1]. -/
theorem normalize_value_mono_and_range (lo hi : ℕ) (h : lo < hi) :
    (∀ r1 r2 : ℕ, r1 ≤ r2 →
      (normalize_value r1 lo hi : ℚ) ≤ (normalize_value r2 lo hi : ℚ)) ∧
    (∀ r : ℕ, 0 ≤ (normalize_value r lo hi : ℚ) ∧ (normalize_value r lo hi : ℚ) ≤ 1) := by
  have hden : (0 : ℚ) < ((hi - lo : ℕ) : ℚ) := by
    have : 0 < hi - lo := by omega
    exact_mod_cast this
  constructor
  · intro r1 r2 hr
    simp only [normalize_value, if_neg (by omega : ¬ hi ≤ lo)]
    rw [div_le_div_iff_of_pos_right hden]
    have : u32_clamp r1 lo hi - lo ≤ u32_clamp r2 lo hi - lo := by
      have := u32_clamp_mono lo hi r1 r2 (le_of_lt h) hr
      omega
    exact_mod_cast this
  · intro r
    simp only [normalize_value, if_neg (by omega : ¬ hi ≤ lo)]
    constructor
    · apply div_nonneg _ (le_of_lt hden)
      exact_mod_cast Nat.zero_le _
    · rw [div_le_one hden]
      have hle : u32_clamp r lo hi - lo ≤ hi - lo := by
        have := u32_clamp_le r lo hi (le_of_lt h)
        omega
      exact_mod_cast hle

/-- Claim C3 witness at a concrete range. -/
theorem normalize_value_mono_and_range_witness :
    (normalize_value 3 0 10 : ℚ) ≤ (normalize_value 5 0 10 : ℚ) ∧
    0 ≤ (normalize_value 7 0 10 : ℚ) ∧ (normalize_value 7 0 10 : ℚ) ≤ 1 := by
  have h := normalize_value_mono_and_range 0 10 (by decide)
  exact ⟨h.1 3 5 (by decide), h.2 7⟩

/-- Claim C10: `normalize_value` is total and never panics: every partial
`u32` operation of the source (the clamp with its `min <= max` precondition,
the `clamped - min` and `max - min` subtractions) succeeds on every input, so
the checked evaluation always returns `some` and agrees with the total
model. -/
theorem normalize_value_checked_total (raw lo hi : ℕ) :
    normalize_value_checked raw lo hi = some (normalize_value raw lo hi) := by
  by_cases h : hi ≤ lo
  · simp [normalize_value_checked, normalize_value, h]
  · push_neg at h
    have hge : lo ≤ u32_clamp raw lo hi := u32_clamp_ge raw lo hi (le_of_lt h)
    simp [normalize_value_checked, normalize_value, u32_clamp_checked,
      u32_sub_checked, if_neg (by omega : ¬ hi ≤ lo),
      if_neg (by omega : ¬ lo > hi), if_neg (by omega : ¬ u32_clamp raw lo hi < lo),
      if_neg (by omega : ¬ hi < lo)]

/-- Structure `RateLimiter`: the state (src/main.rs lines 141-146): the current output value
and the two configured slew limits. The `last_update : Instant` field is
modelled by passing the elapsed wall-clock time `delta_time` (what
`now.duration_since(self.last_update).as_secs_f32()` computes) explicitly to
`update`. -/
structure RateLimiter (α : Type*) where
  current : α
  max_rate_up : α
  max_rate_down : α

/-- Method `RateLimiter::update` (src/main.rs lines 159-185), returning the updated
state together with the returned actual value. `delta_time` is the elapsed
wall-clock seconds since the previous update. The 0.001 epsilon is written
`1/1000`, exact in the idealised arithmetic. -/
def RateLimiter.update {α : Type*} [LinearOrderedField α]
    (st : RateLimiter α) (target delta_time : α) : RateLimiter α × α :=
  let diff := target - st.current
  let current1 :=
    if |diff| < 1 / 1000 then target
    else if diff > 0 then
      let max_change := st.max_rate_up * delta_time
      let change := Min.min diff max_change
      st.current + change
    else
      let max_change := st.max_rate_down * delta_time
      let change := Min.min |diff| max_change
      st.current - change
  let current2 := fclamp current1 0 1
  (⟨current2, st.max_rate_up, st.max_rate_down⟩, current2)

/-- Claim C1: `RateLimiter.update target` stores and returns exactly: snap to
`target` when `|target - current| < 0.001`, otherwise move `current` toward
`target` by `min(|target - current|, max_rate_up * elapsed)` when
`target > current` and by `min(|target - current|, max_rate_down * elapsed)`
when `target < current`, the result clamped to [0, 1]; in particular from
current = 0 with rates (0.05, 0.30) and elapsed 1 s, `update 1` returns 0.05,
and from current = 1, `update 0` returns 0.7. -/
theorem rateLimiter_update_spec :
    (∀ (st : RateLimiter ℚ) (target delta_time : ℚ),
      (st.update target delta_time).2 =
        fclamp
          (if |target - st.current| < 1 / 1000 then target
           else if st.current < target then
             st.current + Min.min (target - st.current) (st.max_rate_up * delta_time)
           else
             st.current - Min.min (st.current - target) (st.max_rate_down * delta_time))
          0 1 ∧
      (st.update target delta_time).1.current = (st.update target delta_time).2 ∧
      (st.update target delta_time).1.max_rate_up = st.max_rate_up ∧
      (st.update target delta_time).1.max_rate_down = st.max_rate_down) ∧
    (RateLimiter.update ⟨0, MAX_RATE_UP, MAX_RATE_DOWN⟩ 1 1).2 = 1 / 20 ∧
    (RateLimiter.update ⟨1, MAX_RATE_UP, MAX_RATE_DOWN⟩ 0 1).2 = 7 / 10 := by
  refine ⟨fun st target delta_time => ⟨?_, rfl, rfl, rfl⟩, ?_, ?_⟩
  · simp only [RateLimiter.update]
    congr 1
    by_cases h1 : |target - st.current| < 1 / 1000
    · rw [if_pos h1, if_pos h1]
    · rw [if_neg h1, if_neg h1]
      by_cases h2 : target - st.current > 0
      · rw [if_pos h2, if_pos (show st.current < target by linarith)]
      · have h2' : ¬ st.current < target := fun hc => h2 (by linarith)
        rw [if_neg h2, if_neg h2']
        have habs : |target - st.current| = st.current - target := by
          rw [abs_sub_comm]
          push_neg at h2
          exact abs_of_nonneg (by linarith)
        rw [habs]
  · norm_num [RateLimiter.update, MAX_RATE_UP, MAX_RATE_DOWN, fclamp, abs]
  · norm_num [RateLimiter.update, MAX_RATE_UP, MAX_RATE_DOWN, fclamp, abs]

/-- Enumeration `VolumeCurve` (src/main.rs lines 35-39). -/
inductive VolumeCurve where
  | Linear
  | Logarithmic
  | Exponential
deriving DecidableEq

/-- Constant `VOLUME_CURVE` (src/main.rs line 41). -/
def VOLUME_CURVE : VolumeCurve := VolumeCurve.Logarithmic

/-- Function `apply_volume_curve` (src/main.rs lines 93-125): clamps the input to
[0, 1], then applies the selected curve; the `10^(x)` powers of the
Logarithmic branch are real powers (`Real.rpow`). -/
noncomputable def apply_volume_curve (linear : ℝ) (curve : VolumeCurve)
    (db_min db_max : ℝ) : ℝ :=
  let linear := fclamp linear 0 1
  match curve with
  | VolumeCurve.Linear => linear
  | VolumeCurve.Logarithmic =>
      if linear ≤ 0 then 0
      else
        let db := db_min + (db_max - db_min) * linear
        let amplitude := (10 : ℝ) ^ (db / 20)
        let min_amplitude := (10 : ℝ) ^ (db_min / 20)
        let max_amplitude := (10 : ℝ) ^ (db_max / 20)
        fclamp ((amplitude - min_amplitude) / (max_amplitude - min_amplitude)) 0 1
  | VolumeCurve.Exponential => linear * linear

theorem fclamp_le {α : Type*} [LinearOrder α] (x lo hi : α) (h : lo ≤ hi) :
    fclamp x lo hi ≤ hi := by
  unfold fclamp; split_ifs with h1 h2
  · exact h
  · exact le_rfl
  · exact le_of_not_lt h2

theorem fclamp_ge {α : Type*} [LinearOrder α] (x lo hi : α) (h : lo ≤ hi) :
    lo ≤ fclamp x lo hi := by
  unfold fclamp; split_ifs with h1 h2
  · exact le_rfl
  · exact h
  · exact le_of_not_lt h1

theorem fclamp_idem {α : Type*} [LinearOrder α] (x lo hi : α) (h : lo ≤ hi) :
    fclamp (fclamp x lo hi) lo hi = fclamp x lo hi := by
  unfold fclamp
  split_ifs <;> first | rfl | exact absurd h (not_le.mpr (by assumption))

/-- Claim C4: for every input, curve variant and dB range,
`apply_volume_curve` first clamps the input to [0, 1] (applying it to the
already-clamped input gives the same result) and its returned value lies in
[0, 1]. -/
theorem apply_volume_curve_clamps_and_range (linear : ℝ) (curve : VolumeCurve)
    (db_min db_max : ℝ) :
    apply_volume_curve linear curve db_min db_max =
      apply_volume_curve (fclamp linear 0 1) curve db_min db_max ∧
    0 ≤ apply_volume_curve linear curve db_min db_max ∧
    apply_volume_curve linear curve db_min db_max ≤ 1 := by
  have h01 : (0 : ℝ) ≤ 1 := zero_le_one
  have hcl : fclamp (fclamp linear 0 1) 0 1 = fclamp linear 0 1 :=
    fclamp_idem linear 0 1 h01
  refine ⟨by simp only [apply_volume_curve, hcl], ?_⟩
  cases curve with
  | Linear =>
      exact ⟨fclamp_ge linear 0 1 h01, fclamp_le linear 0 1 h01⟩
  | Logarithmic =>
      simp only [apply_volume_curve]
      split_ifs
      · exact ⟨le_rfl, h01⟩
      · exact ⟨fclamp_ge _ 0 1 h01, fclamp_le _ 0 1 h01⟩
  | Exponential =>
      simp only [apply_volume_curve]
      have h0 : 0 ≤ fclamp linear 0 1 := fclamp_ge linear 0 1 h01
      have h1 : fclamp linear 0 1 ≤ 1 := fclamp_le linear 0 1 h01
      exact ⟨mul_nonneg h0 h0, mul_le_one₀ h1 h0 h1⟩

/-- Claim C5: for every dB range, the Logarithmic curve maps the input 0
to exactly 0 (the silence floor bypasses the dB formula). -/
theorem apply_volume_curve_log_zero (db_min db_max : ℝ) :
    apply_volume_curve 0 VolumeCurve.Logarithmic db_min db_max = 0 := by
  have hfc : fclamp (0 : ℝ) 0 1 = 0 := by norm_num [fclamp]
  simp only [apply_volume_curve, hfc]
  norm_num

theorem rpow_neg_three_eq : (10 : ℝ) ^ (-(3 : ℝ)) = 1 / 1000 := by
  rw [show (-(3 : ℝ)) = -((3 : ℕ) : ℝ) by norm_num,
    Real.rpow_neg (by norm_num : (0 : ℝ) ≤ 10), Real.rpow_natCast]
  norm_num

theorem rpow_neg_one_eq : (10 : ℝ) ^ (-(1 : ℝ)) = 1 / 10 := by
  rw [show (-(1 : ℝ)) = -((1 : ℕ) : ℝ) by norm_num,
    Real.rpow_neg (by norm_num : (0 : ℝ) ≤ 10), Real.rpow_natCast]
  norm_num

theorem rpow_neg_three_lt_half_exp :
    (10 : ℝ) ^ (-(3 : ℝ)) < (10 : ℝ) ^ (-(3 : ℝ) / 2) :=
  Real.rpow_lt_rpow_of_exponent_lt (by norm_num) (by norm_num)

theorem rpow_half_exp_le : (10 : ℝ) ^ (-(3 : ℝ) / 2) ≤ 1 / 10 := by
  have h := Real.rpow_le_rpow_of_exponent_le
    (by norm_num : (1 : ℝ) ≤ 10) (by norm_num : -(3 : ℝ) / 2 ≤ -(1 : ℝ))
  rwa [rpow_neg_one_eq] at h

theorem apply_log_at_half_eq :
    apply_volume_curve (1 / 2) VolumeCurve.Logarithmic DB_MIN DB_MAX =
      ((10 : ℝ) ^ (-(3 : ℝ) / 2) - (10 : ℝ) ^ (-(3 : ℝ))) / (1 - (10 : ℝ) ^ (-(3 : ℝ))) := by
  have hfc : fclamp ((1 : ℝ) / 2) 0 1 = 1 / 2 := by norm_num [fclamp]
  simp only [apply_volume_curve, hfc]
  rw [if_neg (by norm_num)]
  have e1 : (DB_MIN + (DB_MAX - DB_MIN) * ((1 : ℝ) / 2)) / 20 = -(3 : ℝ) / 2 := by
    norm_num [DB_MIN, DB_MAX]
  have e2 : DB_MIN / 20 = -(3 : ℝ) := by norm_num [DB_MIN]
  have e3 : DB_MAX / 20 = (0 : ℝ) := by norm_num [DB_MAX]
  rw [e1, e2, e3, Real.rpow_zero]
  set v : ℝ := ((10 : ℝ) ^ (-(3 : ℝ) / 2) - (10 : ℝ) ^ (-(3 : ℝ))) / (1 - (10 : ℝ) ^ (-(3 : ℝ)))
  have hv0 : 0 ≤ v := by
    apply div_nonneg
    · linarith [rpow_neg_three_lt_half_exp]
    · rw [rpow_neg_three_eq]; norm_num
  have hvlt : v < 1 / 2 := by
    rw [show v = ((10 : ℝ) ^ (-(3 : ℝ) / 2) - (10 : ℝ) ^ (-(3 : ℝ))) /
        (1 - (10 : ℝ) ^ (-(3 : ℝ))) from rfl, rpow_neg_three_eq,
      div_lt_iff (by norm_num : (0 : ℝ) < 1 - 1 / 1000)]
    linarith [rpow_half_exp_le]
  unfold fclamp
  rw [if_neg (not_lt.mpr hv0), if_neg (by push_neg; linarith)]

theorem normalize_half_real : (normalize_value 50000 POT_MIN POT_MAX : ℝ) = 1 / 2 := by
  norm_num [normalize_value, u32_clamp, POT_MIN, POT_MAX]

/-- Claim C6 counterexample: with raw = 50000 over the range (0, 100000),
normalization yields linear = 0.5, but the Logarithmic curve with
db_min = -60, db_max = 0 applied to it is NOT greater than 0.5. -/
theorem end_to_end_log_half_counterexample :
    (normalize_value 50000 POT_MIN POT_MAX : ℝ) = 1 / 2 ∧
    ¬ (1 / 2 <
      apply_volume_curve (normalize_value 50000 POT_MIN POT_MAX)
        VolumeCurve.Logarithmic DB_MIN DB_MAX) := by
  refine ⟨normalize_half_real, ?_⟩
  rw [normalize_half_real, apply_log_at_half_eq, not_lt, rpow_neg_three_eq,
    div_le_iff (by norm_num : (0 : ℝ) < 1 - 1 / 1000)]
  linarith [rpow_half_exp_le]

/-- Claim C6, amended: with raw = 50000 and range (0, 100000),
`normalize_value` yields linear = 0.5, and the Logarithmic curve with
db_min = -60, db_max = 0 at linear = 0.5 equals the explicit amplitude
formula value (10^(-1.5) - 10^(-3)) / (10^0 - 10^(-3)), which is strictly
between 0 and 0.5 — less than 0.5, not greater. -/
theorem end_to_end_log_half_amended :
    (normalize_value 50000 POT_MIN POT_MAX : ℝ) = 1 / 2 ∧
    apply_volume_curve (normalize_value 50000 POT_MIN POT_MAX)
        VolumeCurve.Logarithmic DB_MIN DB_MAX =
      ((10 : ℝ) ^ (-(3 : ℝ) / 2) - (10 : ℝ) ^ (-(3 : ℝ))) /
        ((10 : ℝ) ^ (0 : ℝ) - (10 : ℝ) ^ (-(3 : ℝ))) ∧
    0 < apply_volume_curve (normalize_value 50000 POT_MIN POT_MAX)
        VolumeCurve.Logarithmic DB_MIN DB_MAX ∧
    apply_volume_curve (normalize_value 50000 POT_MIN POT_MAX)
        VolumeCurve.Logarithmic DB_MIN DB_MAX < 1 / 2 := by
  have heq : apply_volume_curve (normalize_value 50000 POT_MIN POT_MAX)
      VolumeCurve.Logarithmic DB_MIN DB_MAX =
      ((10 : ℝ) ^ (-(3 : ℝ) / 2) - (10 : ℝ) ^ (-(3 : ℝ))) / (1 - (10 : ℝ) ^ (-(3 : ℝ))) := by
    rw [normalize_half_real, apply_log_at_half_eq]
  refine ⟨normalize_half_real, by rw [heq, Real.rpow_zero], ?_, ?_⟩
  · rw [heq]
    apply div_pos
    · linarith [rpow_neg_three_lt_half_exp]
    · rw [rpow_neg_three_eq]; norm_num
  · rw [heq, rpow_neg_three_eq, div_lt_iff (by norm_num : (0 : ℝ) < 1 - 1 / 1000)]
    linarith [rpow_half_exp_le]

/-- Structure `PotReading` (src/main.rs lines 54-58): the JSON payload of the pull
status endpoint. -/
structure PotReading where
  value : ℕ
  timestamp : ℕ

/-- State touched by one cycle of the sampling loop (src/main.rs lines
288-331): the shared `last_reading` cell, the optional rate limiter
(`RATE_LIMITING_ENABLED` selects `some`), the list of values handed to the
OSC push sink so far, and a ghost `captureTime` recording the wall-clock
second at which the last successful sample was taken (the code keeps no such
field; the ghost lets the spec's "capture timestamp" be stated). -/
structure SysState where
  lastReading : ℕ
  limiter : Option (RateLimiter ℝ)
  sent : List ℝ
  captureTime : ℕ

/-- Input of one sampling cycle: the result of `analog_read`, the ghost
wall-clock second of the cycle, and the elapsed seconds the limiter's
`Instant` arithmetic would observe. -/
structure CycleInput where
  reading : Except String ℕ
  time : ℕ
  delta : ℝ

/-- One iteration of the sampling loop body (src/main.rs lines 290-328):
on `Ok(value)` it normalizes, applies the volume curve, rate-limits when a
limiter is present, stores `value` into `last_reading` and forwards the
final value to the push sink when one is configured; on `Err` it only logs
and leaves all state unchanged. -/
noncomputable def loopCycle (osc : Bool) (inp : CycleInput) (s : SysState) : SysState :=
  match inp.reading with
  | Except.error _ => s
  | Except.ok value =>
      let linear : ℝ := normalize_value value POT_MIN POT_MAX
      let target := apply_volume_curve linear VOLUME_CURVE DB_MIN DB_MAX
      match s.limiter with
      | some limiter =>
          let r := limiter.update target inp.delta
          { lastReading := value
            limiter := some r.1
            sent := if osc then s.sent ++ [r.2] else s.sent
            captureTime := inp.time }
      | none =>
          { lastReading := value
            limiter := none
            sent := if osc then s.sent ++ [target] else s.sent
            captureTime := inp.time }

/-- The sampling loop run over a finite prefix of cycles; total by
structural recursion — no cycle outcome can abort it. -/
noncomputable def runLoop (osc : Bool) : List CycleInput → SysState → SysState
  | [], s => s
  | c :: rest, s => runLoop osc rest (loopCycle osc c s)

/-- Initial state of `main` (src/main.rs lines 269, 279-285):
`last_reading` starts at 0 and the rate limiter starts at
`RateLimiter::new(0.0, MAX_RATE_UP, MAX_RATE_DOWN)`. -/
noncomputable def initState : SysState :=
  { lastReading := 0
    limiter := some ⟨0, (MAX_RATE_UP : ℝ), (MAX_RATE_DOWN : ℝ)⟩
    sent := []
    captureTime := 0 }

/-- Handler `get_potentiometer` (src/main.rs lines 235-243): reads the shared cell
and timestamps the response with the wall-clock second at which the request
is served. -/
def get_potentiometer (s : SysState) (now : ℕ) : PotReading :=
  { value := s.lastReading, timestamp := now }

/-- Claim C7: a cycle whose `analog_read` fails leaves the whole loop state
unchanged — `last_reading` keeps the previously published value, nothing is
forwarded to the push sink — and the loop simply continues with the
remaining cycles; `loopCycle`/`runLoop` are total, so the failure is never
promoted to a fatal error. -/
theorem sampling_error_skips_cycle (osc : Bool) (e : String) (t : ℕ) (d : ℝ)
    (rest : List CycleInput) (s : SysState) :
    runLoop osc (⟨Except.error e, t, d⟩ :: rest) s = runLoop osc rest s ∧
    loopCycle osc ⟨Except.error e, t, d⟩ s = s := ⟨rfl, rfl⟩

/-- The value field written by one cycle: the sampled value on success, the
previous one on failure. -/
theorem loopCycle_lastReading (osc : Bool) (c : CycleInput) (s : SysState) :
    (loopCycle osc c s).lastReading =
      match c.reading with
      | Except.ok v => v
      | Except.error _ => s.lastReading := by
  obtain ⟨r, t, d⟩ := c
  obtain ⟨lr, lim, snt, ct⟩ := s
  cases r with
  | error _ => rfl
  | ok v => cases lim <;> rfl

/-- Most recent `Ok` value of a cycle list, starting from a default. -/
def lastOkValue : List CycleInput → ℕ → ℕ
  | [], d => d
  | c :: rest, d =>
      lastOkValue rest
        (match c.reading with
         | Except.ok v => v
         | Except.error _ => d)

theorem runLoop_lastReading (osc : Bool) (l : List CycleInput) :
    ∀ s : SysState, (runLoop osc l s).lastReading = lastOkValue l s.lastReading := by
  induction l with
  | nil => intro s; rfl
  | cons c rest ih =>
      intro s
      simp only [runLoop, lastOkValue, ih, loopCycle_lastReading]

/-- Claim C9 counterexample: the endpoint's timestamp is the wall-clock
second at which the request is served, not the reading's capture time.
After a single successful cycle captured at second 5, a request served at
second 9 reports timestamp 9, which differs from the capture time 5. -/
theorem pull_timestamp_counterexample :
    (runLoop true [⟨Except.ok 42, 5, 1⟩] initState).captureTime = 5 ∧
    (get_potentiometer (runLoop true [⟨Except.ok 42, 5, 1⟩] initState) 9).value = 42 ∧
    (get_potentiometer (runLoop true [⟨Except.ok 42, 5, 1⟩] initState) 9).timestamp = 9 ∧
    (get_potentiometer (runLoop true [⟨Except.ok 42, 5, 1⟩] initState) 9).timestamp ≠
      (runLoop true [⟨Except.ok 42, 5, 1⟩] initState).captureTime := by
  refine ⟨rfl, rfl, rfl, ?_⟩
  intro h
  have h5 : (runLoop true [⟨Except.ok 42, 5, 1⟩] initState).captureTime = 5 := rfl
  rw [h5] at h
  exact absurd h (by decide)

/-- Claim C9, amended: every response of the pull status endpoint contains
the most recent successfully sampled RawReading together with the wall-clock
time (seconds since epoch) at which the request is served — not the
reading's capture time; the value is 0 before the first successful cycle,
and the last successfully sampled value continues to be returned even if
later cycles failed. -/
theorem pull_endpoint_spec :
    (∀ (s : SysState) (now : ℕ),
      (get_potentiometer s now).value = s.lastReading ∧
      (get_potentiometer s now).timestamp = now) ∧
    initState.lastReading = 0 ∧
    (∀ (osc : Bool) (l : List CycleInput),
      (runLoop osc l initState).lastReading = lastOkValue l 0) := by
  refine ⟨fun s now => ⟨rfl, rfl⟩, rfl, fun osc l => ?_⟩
  rw [runLoop_lastReading]
  rfl

/-- The iteration ceiling `max_count` of `charge_time`
(src/main.rs line 215). -/
def MAX_COUNT : ℕ := 1000000

/-- The `while pin_b.is_low() && count < max_count { count += 1 }` loop of
`PotentiometerReader::charge_time` (src/main.rs lines 213-219). `is_low k`
is the pin-B level the k-th check observes. Lean accepts the recursion
because `MAX_COUNT - count` shrinks: this is exactly the iteration-ceiling
termination argument of the source. -/
def chargeLoop (is_low : ℕ → Bool) (count : ℕ) : ℕ :=
  if h : is_low count = true ∧ count < MAX_COUNT then chargeLoop is_low (count + 1)
  else count
termination_by MAX_COUNT - count
decreasing_by
  obtain ⟨-, h2⟩ := h
  omega

/-- Method `PotentiometerReader::charge_time` (src/main.rs lines 208-222) after the
pin setup succeeded: counts poll iterations from 0 and returns the count as
a normal reading (`Ok(count)`). -/
def charge_time (is_low : ℕ → Bool) : ℕ := chargeLoop is_low 0

theorem chargeLoop_le (is_low : ℕ → Bool) :
    ∀ n count, MAX_COUNT - count ≤ n → count ≤ MAX_COUNT →
      chargeLoop is_low count ≤ MAX_COUNT := by
  intro n
  induction n with
  | zero =>
      intro count hn hc
      rw [chargeLoop]
      split
      · next h => obtain ⟨-, h2⟩ := h; omega
      · exact hc
  | succ n ih =>
      intro count hn hc
      rw [chargeLoop]
      split
      · next h =>
          obtain ⟨-, h2⟩ := h
          exact ih (count + 1) (by omega) (by omega)
      · exact hc

theorem chargeLoop_always_low :
    ∀ n count, MAX_COUNT - count ≤ n → count ≤ MAX_COUNT →
      chargeLoop (fun _ => true) count = MAX_COUNT := by
  intro n
  induction n with
  | zero =>
      intro count hn hc
      rw [chargeLoop]
      split
      · next h => obtain ⟨-, h2⟩ := h; omega
      · next h =>
          simp only [not_and, not_lt] at h
          omega
  | succ n ih =>
      intro count hn hc
      rw [chargeLoop]
      split
      · next h =>
          obtain ⟨-, h2⟩ := h
          exact ih (count + 1) (by omega) (by omega)
      · next h =>
          simp only [not_and, not_lt] at h
          have hge := h trivial
          omega

/-- Claim C8: the charge-time polling loop terminates for every sequence of
pin-B level readings (`chargeLoop` is accepted as total, its recursion
bounded by the iteration ceiling), every count it returns is at most
1,000,000, and reaching the ceiling is not an error: with the pin reading
low forever the loop returns the ceiling value itself as a normal
reading. -/
theorem charge_time_bounded :
    (∀ is_low : ℕ → Bool, charge_time is_low ≤ MAX_COUNT) ∧
    charge_time (fun _ => true) = MAX_COUNT ∧
    MAX_COUNT = 1000000 := by
  refine ⟨fun is_low => ?_, ?_, rfl⟩
  · exact chargeLoop_le is_low MAX_COUNT 0 (by omega) (by omega)
  · exact chargeLoop_always_low MAX_COUNT 0 (by omega) (by omega)
